import Mathlib

/-
  Verification development for the ai-ta course-assistant backend
  (document ingestion / embedding / retrieval pipeline).

  Python strings are modelled as lists of characters, Python ints as ℤ,
  floats as exact rationals ℚ, UUIDs as ℕ.  The relational store is a pair
  of table lists with explicit committed/pending session state; external
  collaborators (S3 blob store, the embedding service, the text-generation
  service, pgvector distance operator) are oracle functions supplied in an
  environment record.
-/

set_option maxRecDepth 40000

namespace AiTa

/-- Python str modelled as a list of characters. -/
abbrev PyStr := List Char

/-- True for characters that are not whitespace. -/
def notWs (c : Char) : Bool := !c.isWhitespace

/-- Worker for pySplit: walks the characters, accumulating the current token
in reverse; a whitespace character flushes a nonempty accumulator. -/
def pySplitGo : PyStr → PyStr → List PyStr
  | cur, [] => if cur.isEmpty then [] else [cur.reverse]
  | cur, c :: rest =>
    if c.isWhitespace then
      if cur.isEmpty then pySplitGo [] rest else cur.reverse :: pySplitGo [] rest
    else pySplitGo (c :: cur) rest

/-- Embedding of Python text.split() with no arguments: split on runs of
whitespace, discarding empty tokens (src/server/src/utils.py, chunk_text).
The takeWhile/dropWhile characterisation is proved below
(pySplit_cons_ws, pySplit_cons_nws). -/
def pySplit (s : PyStr) : List PyStr := pySplitGo [] s

/-- Embedding of the Python expression " ".join(tokens). -/
def joinSpace : List PyStr → PyStr
  | [] => []
  | w :: ws =>
    match ws with
    | [] => w
    | w2 :: ws2 => w ++ ' ' :: joinSpace (w2 :: ws2)

/-- Resolve one endpoint of a Python slice on a list of length n. -/
def pyIdx (n : ℕ) (i : ℤ) : ℕ := if i < 0 then ((n : ℤ) + i).toNat else min i.toNat n

/-- Embedding of the Python slice l[i:j]. -/
def pySlice {α : Type} (l : List α) (i j : ℤ) : List α :=
  (l.take (pyIdx l.length j)).drop (pyIdx l.length i)

/-- One execution of the while loop of chunk_text (src/server/src/utils.py
lines 10-19), with explicit fuel: some cs means the loop exited after at
most the given number of iterations with accumulated chunks cs, none means
the fuel was exhausted with the loop condition still true.  start, chunk_size
and overlap are Python ints, hence ℤ. -/
def chunkLoop (tokens : List PyStr) (chunk_size overlap : ℤ) : ℕ → ℤ → Option (List PyStr)
  | 0, start => if start < (tokens.length : ℤ) then none else some []
  | fuel + 1, start =>
    if start < (tokens.length : ℤ) then
      (chunkLoop tokens chunk_size overlap fuel (start + (chunk_size - overlap))).map
        (fun rest =>
          joinSpace (pySlice tokens start (min (start + chunk_size) (tokens.length : ℤ))) :: rest)
    else some []

/-- Embedding of chunk_text(text, chunk_size, overlap) from
src/server/src/utils.py.  The Python defaults are chunk_size = 500 and
overlap = 50; with overlap < chunk_size the loop performs at most
len(tokens) iterations, so fuel len(tokens) + 1 is enough and the result is
some list (proved below); none models a non-terminating call. -/
def chunk_text (text : PyStr) (chunk_size overlap : ℤ) : Option (List PyStr) :=
  chunkLoop (pySplit text) chunk_size overlap ((pySplit text).length + 1) 0

/-- The while loop of chunk_text terminates on the given arguments:
some fuel bound makes it exit. -/
def ChunkTerminates (tokens : List PyStr) (chunk_size overlap : ℤ) : Prop :=
  ∃ fuel, (chunkLoop tokens chunk_size overlap fuel 0).isSome

/-- Window-level specification of the chunk loop: the list of token windows
the loop slices out, starting at position start, for natural parameters with
overlap < chunk_size (the only terminating case). -/
def chunksFrom (tokens : List PyStr) (chunk_size overlap start : ℕ) : List (List PyStr) :=
  if _h : start < tokens.length ∧ overlap < chunk_size then
    (tokens.drop start).take (min (start + chunk_size) tokens.length - start) ::
      chunksFrom tokens chunk_size overlap (start + (chunk_size - overlap))
  else []
termination_by tokens.length - start
decreasing_by omega

/-- Concatenation of the first stride tokens of every window except the
last, followed by the last window in full. -/
def stridePrefixJoin {α : Type} (stride : ℕ) : List (List α) → List α
  | [] => []
  | w :: ws =>
    match ws with
    | [] => w
    | w2 :: ws2 => w.take stride ++ stridePrefixJoin stride (w2 :: ws2)

/-- Checks that every pair of consecutive windows overlaps in exactly ov
elements: both windows have at least ov elements and the last ov elements
of the first window equal the first ov elements of the second. -/
def overlapOk {α : Type} [DecidableEq α] (ov : ℕ) : List (List α) → Bool
  | [] => true
  | w1 :: ws =>
    match ws with
    | [] => true
    | w2 :: ws2 =>
      decide (ov ≤ w1.length) && decide (ov ≤ w2.length) &&
        decide (w1.drop (w1.length - ov) = w2.take ov) && overlapOk ov (w2 :: ws2)

/-! Basic equations for the chunker model. -/

/-!
Data model (src/server/src/database/models.py): UUIDs as ℕ, floats as exact
rationals, JSON metadata dicts as association lists in insertion order.
-/

inductive MVal where
  | str (s : PyStr)
  | int (n : ℤ)
  | rat (q : ℚ)
deriving DecidableEq

abbrev Meta := List (PyStr × MVal)

def metaLookup : Meta → PyStr → Option MVal
  | [], _ => none
  | p :: rest, key => if p.1 = key then some p.2 else metaLookup rest key

def st_pending : PyStr := "pending".toList
def st_processing : PyStr := "processing".toList
def st_completed : PyStr := "completed".toList
def st_failed : PyStr := "failed".toList

/-- One row of the course_materials table. -/
structure Material where
  id : ℕ
  course_id : ℕ
  file_name : PyStr
  file_type : Option PyStr
  s3_key : PyStr
  is_processed : Bool
  processing_status : PyStr
  meta : Meta
  uploaded_at : ℕ
deriving DecidableEq

/-- One row of the vector_embeddings table. -/
structure VectorEmbedding where
  material_id : ℕ
  course_id : ℕ
  chunk_text : PyStr
  chunk_index : ℕ
  embedding : List ℚ
  meta : Meta
deriving DecidableEq

structure DBState where
  materials : List Material
  embeddings : List VectorEmbedding
deriving DecidableEq

/-- A SQLAlchemy session: the committed database plus the pending view with
uncommitted changes.  Closing a session without committing discards the
pending view. -/
structure DBSession where
  committed : DBState
  pending : DBState
deriving DecidableEq

def commit (s : DBSession) : DBSession := ⟨s.pending, s.pending⟩

def rollback (s : DBSession) : DBSession := ⟨s.committed, s.committed⟩

/-- BaseRepository.get_by_id: first row with the given id. -/
def get_by_id (db : DBState) (mid : ℕ) : Option Material :=
  db.materials.find? (fun m => decide (m.id = mid))

/-- The field assignments of a successful MaterialRepository
.update_processing_status call on the found material: set processing_status
and, when given, is_processed.  No metadata key is ever assigned on a
successful call: the metadata merge that would produce one runs only for
truthy metadata, and then raises before reaching the assignment (see
update_processing_status), so meta is unchanged. -/
def applyStatusUpdate (m : Material) (status : PyStr) (is_processed : Option Bool) :
    Material :=
  { m with
    processing_status := status,
    is_processed := is_processed.getD m.is_processed }

/-- The database after the successful field update on the found row (ids are
unique in the database, so updating every row with the id models updating
the found row). -/
def setStatusDB (db : DBState) (mid : ℕ) (status : PyStr)
    (is_processed : Option Bool) : DBState :=
  let f := fun m : Material =>
    if m.id = mid then applyStatusUpdate m status is_processed else m
  { db with materials := db.materials.map f }

/-- MaterialRepository.update_processing_status.  When the material is found
and metadata is truthy (some non-empty dict), the merge reads
material.metadata — on a SQLAlchemy declarative model that attribute is the
class's MetaData registry, not the JSON column, which models.py names
meta_data (and which main.py reads as material.meta_data) — so
material.metadata or {} yields the truthy MetaData object and
existing_metadata.update(...) raises AttributeError (modeled as none) before
any field is assigned; AttributeError is not a SQLAlchemyError, so the
function's own except clause does not catch it and it propagates to the
caller.  With falsy metadata (None or {}) the merge is skipped and the
update succeeds; a missing material returns None without touching the
database. -/
def update_processing_status (db : DBState) (mid : ℕ) (status : PyStr)
    (is_processed : Option Bool) (md : Option Meta) : Option DBState :=
  match get_by_id db mid with
  | none => some db
  | some _ =>
    match md with
    | some new =>
      if new.isEmpty then some (setStatusDB db mid status is_processed)
      else none
    | none => some (setStatusDB db mid status is_processed)

structure ChunkData where
  text : PyStr
  embedding : List ℚ
  meta : Meta
deriving DecidableEq

/-- VectorRepository.create_embeddings: one row per chunk, with
chunk_index = the position in the given list. -/
def create_embeddings_records (material_id course_id : ℕ)
    (chunks_with_embeddings : List ChunkData) : List VectorEmbedding :=
  chunks_with_embeddings.enum.map (fun p =>
    { material_id := material_id, course_id := course_id, chunk_text := p.2.text,
      chunk_index := p.1, embedding := p.2.embedding, meta := p.2.meta })

/-- VectorRepository.similarity_search: rows of the course ordered ascending
by the distance operator (pgvector cosine_distance, an operator of the
external relational store, supplied as the parameter dist), truncated to the
limit. -/
def similarity_search (dist : List ℚ → List ℚ → ℚ) (db : DBState) (course_id : ℕ)
    (query_embedding : List ℚ) (limit : ℕ) : List VectorEmbedding :=
  ((db.embeddings.filter (fun e => decide (e.course_id = course_id))).insertionSort
    (fun a b => dist a.embedding query_embedding ≤ dist b.embedding query_embedding)).take
    limit

def embCount (db : DBState) (mid : ℕ) : ℕ :=
  (db.embeddings.filter (fun e => decide (e.material_id = mid))).length

def statusOf (db : DBState) (mid : ℕ) : Option PyStr :=
  (get_by_id db mid).map (fun m => m.processing_status)

/-! External collaborators (src/server/src/ingestion.py, storage, OpenAI
clients) as oracle functions; and the ingestion pipeline. -/

structure Env where
  /-- get_embedding: none models a raised exception. -/
  embed : PyStr → Option (List ℚ)
  /-- course_file_service.download_and_extract_text: returns the text or
  None (it catches its own exceptions). -/
  download : PyStr → Option PyStr
  /-- Whether the bulk insert of create_embeddings succeeds. -/
  storeOk : Bool
  /-- str(e) of the SQLAlchemyError raised when the bulk insert fails. -/
  storeErr : PyStr
  /-- chat.completions.create: system message, user message to answer;
  none models a raised exception. -/
  llm : PyStr → PyStr → Option PyStr
  /-- get_conversation_history_from_db for a user and course. -/
  history : ℕ → ℕ → List (PyStr × PyStr)
  /-- Python UUID(string) parsing: none models ValueError. -/
  parseUUID : PyStr → Option ℕ

def err_no_chunks : PyStr := "Document produced no text chunks".toList
def err_no_embeddings : PyStr := "Could not generate embeddings for any chunks".toList
def error_key : PyStr := "error".toList
def total_chunks_key : PyStr := "total_chunks".toList
def avg_chunk_length_key : PyStr := "avg_chunk_length".toList
def chunk_length_key : PyStr := "chunk_length".toList
def word_count_key : PyStr := "word_count".toList

/-- Stands for str(e) of the AttributeError raised by the metadata merge of
update_processing_status (the MetaData registry has no update method).
Nothing ever observes this string: the failed-status update that would
record it raises the same AttributeError itself. -/
def err_metadata_attribute : PyStr :=
  "MetaData object has no attribute update".toList

def errOf (db : DBState) (mid : ℕ) : Option MVal :=
  (get_by_id db mid).bind (fun m => metaLookup m.meta error_key)

/-- The per-chunk metadata built in process_document_content. -/
def chunk_meta (c : PyStr) : Meta :=
  [(chunk_length_key, MVal.int c.length), (word_count_key, MVal.int (pySplit c).length)]

/-- The per-chunk embedding loop of process_document_content: a chunk whose
embedding call raises is skipped, the rest keep their relative order. -/
def embedChunks (env : Env) (chunks : List PyStr) : List ChunkData :=
  chunks.filterMap (fun c => (env.embed c).map (fun v => ⟨c, v, chunk_meta c⟩))

structure ProcResult where
  ok : Bool
  session : DBSession
  embedCalls : ℕ
deriving DecidableEq

/-- The except branch of process_document_content: try to mark the material
failed with metadata={error: str(e)} inside an inner try whose bare except
does pass.  The truthy metadata makes update_processing_status raise
AttributeError before any field is assigned and the bare except swallows it,
so the session always comes back unchanged (when the material is missing the
update is a no-op anyway). -/
def failStatusUpdate (s : DBSession) (mid : ℕ) (err : PyStr) : DBSession :=
  match update_processing_status s.pending mid st_failed (some false)
      (some [(error_key, MVal.str err)]) with
  | some p => { s with pending := p }
  | none => s

/-- ingestion.process_document_content: chunk the text, embed the chunks
(skipping failures), bulk-insert the embeddings and try to mark the material
completed with summary metadata.  That completed update passes truthy
metadata, so after the embedding rows were flushed it raises AttributeError
(see update_processing_status); control falls to the except branch, whose
failed-status update (failStatusUpdate) raises and is swallowed in turn, and
the function returns False with the flushed rows still pending and no status
change.  Earlier failures — no chunks, no embeddings after the per-chunk
loop, a storage error (which rolls the session back first) — reach the same
except branch.  The fuel of chunk_text is always sufficient at the default
parameters (chunk_text_default_eq), so getD [] never takes its default. -/
def process_document_content (env : Env) (doc_text : PyStr) (material_id course_id : ℕ)
    (s : DBSession) : ProcResult :=
  let chunks := (chunk_text doc_text 500 50).getD []
  if chunks.isEmpty then ⟨false, failStatusUpdate s material_id err_no_chunks, 0⟩
  else
    let cwe := embedChunks env chunks
    if cwe.isEmpty then
      ⟨false, failStatusUpdate s material_id err_no_embeddings, chunks.length⟩
    else if env.storeOk then
      let recs := create_embeddings_records material_id course_id cwe
      let p1 := { s.pending with embeddings := s.pending.embeddings ++ recs }
      let avg : ℚ := (cwe.map (fun c => (c.text.length : ℚ))).sum / cwe.length
      let md : Meta := [(total_chunks_key, MVal.int cwe.length),
        (avg_chunk_length_key, MVal.rat avg)]
      match update_processing_status p1 material_id st_completed (some true) (some md) with
      | some p2 => ⟨true, { s with pending := p2 }, chunks.length⟩
      | none =>
        ⟨false, failStatusUpdate { s with pending := p1 } material_id
          err_metadata_attribute, chunks.length⟩
    else
      ⟨false, failStatusUpdate (rollback s) material_id env.storeErr, chunks.length⟩

structure IngestResult where
  ok : Bool
  db : DBState
  downloads : ℕ
  embedCalls : ℕ
deriving DecidableEq

/-- ingestion.ingest_course_material: opens a session over the committed
database db0; a missing or already processed material returns without side
effects; otherwise the material is set to processing — this update passes no
metadata, so it succeeds — and that change is committed, the file is
downloaded and extracted, and the document processed; an extraction failure
(no text or empty text) raises into the outer except, which only rolls back
the uncommitted changes, as would a failure of the processing update (a
statically dead branch here).  The session close at the end of the
with-block discards any uncommitted pending state, so the resulting database
is the committed one. -/
def ingest_course_material (env : Env) (db0 : DBState) (material_id course_id : ℕ) :
    IngestResult :=
  let s0 : DBSession := ⟨db0, db0⟩
  match get_by_id db0 material_id with
  | none => ⟨false, db0, 0, 0⟩
  | some m =>
    if m.is_processed then ⟨true, db0, 0, 0⟩
    else
      match update_processing_status s0.pending material_id st_processing none none with
      | none => ⟨false, (rollback s0).committed, 0, 0⟩
      | some p1 =>
        let s1 := commit { s0 with pending := p1 }
        match env.download m.s3_key with
        | none => ⟨false, (rollback s1).committed, 1, 0⟩
        | some doc_text =>
          if doc_text.isEmpty then ⟨false, (rollback s1).committed, 1, 0⟩
          else
            let pr := process_document_content env doc_text material_id course_id s1
            ⟨pr.ok, (commit pr.session).committed, 1, pr.embedCalls⟩

/-! Retrieval (src/server/src/retrieval.py) and answer generation
(src/server/src/chat.py). -/

/-- One formatted result row of retrieve_from_course. -/
structure RetrievedChunk where
  text : PyStr
  material_id : ℕ
  chunk_index : ℕ
  meta : Meta
  file_name : Option PyStr
  file_type : Option PyStr
deriving DecidableEq

/-- retrieval.retrieve_from_course: embed the query, run similarity_search,
format the rows (the material relationship is the row of the materials table
with the embedding's material id); any exception, e.g. from the embedding
call, yields []. -/
def retrieve_from_course (env : Env) (dist : List ℚ → List ℚ → ℚ) (db : DBState)
    (query : PyStr) (course_id k : ℕ) : List RetrievedChunk :=
  match env.embed query with
  | none => []
  | some qv =>
    (similarity_search dist db course_id qv k).map (fun e =>
      { text := e.chunk_text, material_id := e.material_id, chunk_index := e.chunk_index,
        meta := e.meta,
        file_name := (get_by_id db e.material_id).map (fun m => m.file_name),
        file_type := (get_by_id db e.material_id).bind (fun m => m.file_type) })

/-- One entry of materials_used in retrieve_with_context. -/
structure MaterialGroup where
  file_name : Option PyStr
  file_type : Option PyStr
  chunks : List (PyStr × ℕ)
deriving DecidableEq

/-- One step of the grouping loop of retrieve_with_context: append the
result's (text, chunk_index) entry to its material's group if the dict
already has the material, otherwise add a new group keyed by the material. -/
def groupStep (acc : List (ℕ × MaterialGroup)) (r : RetrievedChunk) :
    List (ℕ × MaterialGroup) :=
  if acc.any (fun p => decide (p.1 = r.material_id)) then
    acc.map (fun p =>
      if p.1 = r.material_id then
        (p.1, { p.2 with chunks := p.2.chunks ++ [(r.text, r.chunk_index)] })
      else p)
  else acc ++ [(r.material_id, ⟨r.file_name, r.file_type, [(r.text, r.chunk_index)]⟩)]

/-- The grouping loop of retrieve_with_context: a dict keyed by material id
in first-appearance order; each result appends its (text, chunk_index) entry
to its material's group in result order. -/
def groupByMaterial (results : List RetrievedChunk) : List (ℕ × MaterialGroup) :=
  results.foldl groupStep []

structure RetrievalContext where
  chunks : List PyStr
  materials_used : List MaterialGroup
  total_chunks : ℕ
  query : PyStr
deriving DecidableEq

/-- retrieval.retrieve_with_context. -/
def retrieve_with_context (env : Env) (dist : List ℚ → List ℚ → ℚ) (db : DBState)
    (query : PyStr) (course_id k : ℕ) : RetrievalContext :=
  let results := retrieve_from_course env dist db query course_id k
  { chunks := results.map (fun r => r.text),
    materials_used := (groupByMaterial results).map (fun p => p.2),
    total_chunks := results.length,
    query := query }

def apos : Char := '\''

def msg_bad_course : PyStr :=
  "I".toList ++ [apos] ++
    "m sorry, there was an error processing your request. Please check the course ID.".toList

def msg_not_found : PyStr :=
  "I".toList ++ [apos] ++ "m sorry, I couldn".toList ++ [apos] ++
    "t find relevant information in the course materials to answer your question. Please try rephrasing your question or consult your course instructor.".toList

def msg_fallback_no_content : PyStr :=
  "I found course materials but couldn".toList ++ [apos] ++
    "t access their content. Please contact your instructor for assistance.".toList

def msg_generic_error : PyStr :=
  "I".toList ++ [apos] ++
    "m sorry, there was an error processing your request. Please try again later.".toList

def anonUser : PyStr := "anonymous".toList

/-- Python sep.join(items). -/
def joinWith (sep : PyStr) : List PyStr → PyStr
  | [] => []
  | x :: xs =>
    match xs with
    | [] => x
    | y :: ys => x ++ sep ++ joinWith sep (y :: ys)

def chat_context_str (history : List (PyStr × PyStr)) : PyStr :=
  joinWith ("\n".toList)
    (history.map (fun m => "Student: ".toList ++ m.1 ++ "\nAssistant: ".toList ++ m.2))

def teaching_principles : PyStr :=
  ". Your responses must adhere to these principles:

1. Only use information from the provided course materials in your answers
2. If you cannot find relevant information in the context, acknowledge this and suggest the student consult the course instructor
3. For questions seeking help with problems or assignments:
   - Guide students towards the answer rather than providing it directly
   - Use the Socratic method by asking thought-provoking questions
   - Provide hints and suggestions that encourage critical thinking
   - Reference specific course materials that might help them
4. For factual questions about course content:
   - Provide clear, accurate explanations using only the course materials
   - Use examples from the course content when applicable
5. Always maintain a supportive and encouraging tone

Remember: Your goal is to help students learn and think independently, not to simply provide answers.".toList

/-- The system message of generate_answer, with the fallback note when the
basic retrieval mode is in use. -/
def system_message (use_fallback : Bool) : PyStr :=
  "You are a knowledgeable and supportive teaching assistant for a university course".toList
    ++ (if use_fallback then
      " (Note: The system is currently using a basic content retrieval mode.)".toList
    else []) ++ teaching_principles

/-- The user message of generate_answer. -/
def user_message (context chat_context query : PyStr) : PyStr :=
  "Here is the relevant context from the course materials:\n\n".toList ++ context ++
    "\n\nPrevious conversation:\n".toList ++ chat_context ++
    "\n\nStudent".toList ++ [apos] ++ "s question: ".toList ++ query ++
    "\n\nRemember to follow the teaching principles in your response.".toList

/-- MaterialRepository.get_course_materials with include_processed_only,
ordered by uploaded_at descending. -/
def get_course_materials_processed (db : DBState) (cid : ℕ) : List Material :=
  (db.materials.filter (fun m => decide (m.course_id = cid) && m.is_processed)).insertionSort
    (fun a b => b.uploaded_at ≤ a.uploaded_at)

/-- The fallback context loop of generate_answer: for each material with an
s3 key, download and extract its text; a failed download or empty text skips
the material; otherwise the first 2000 characters plus an ellipsis become a
context chunk and the file name is recorded. -/
def fallback_contexts (env : Env) (mats : List Material) : List PyStr × List PyStr :=
  mats.foldl (fun acc m =>
    if m.s3_key.isEmpty then acc
    else
      match env.download m.s3_key with
      | some doc =>
        if doc.isEmpty then acc
        else (acc.1 ++ [doc.take 2000 ++ "...".toList], acc.2 ++ [m.file_name])
      | none => acc)
    ([], [])

structure AnswerResult where
  answer : PyStr
  llmCalls : ℕ
deriving DecidableEq

structure GenParams where
  query : PyStr
  userId : PyStr
  courseId : PyStr
  chat_history : Option (List (PyStr × PyStr))
  use_fallback : Bool
deriving DecidableEq

/-- The tail of generate_answer once context chunks exist: build the system
and user messages and call the text-generation service; a service exception
falls to the outer except and returns the canned apology.  The best-effort
conversation persistence and S3 archival that follow a successful call are
external collaborators whose failures are swallowed; they do not affect the
returned answer and are not modelled.  llmCalls counts the calls made to the
text-generation service. -/
def answerWithLLM (env : Env) (context_chunks : List PyStr)
    (history : List (PyStr × PyStr)) (query : PyStr) (use_fallback : Bool) :
    AnswerResult :=
  let context := joinWith ("\n\n".toList) context_chunks
  let cc := chat_context_str history
  match env.llm (system_message use_fallback) (user_message context cc query) with
  | some ans => ⟨ans, 1⟩
  | none => ⟨msg_generic_error, 1⟩

/-- chat.generate_answer: parse the course id (a malformed id is the only
hard precondition failure), resolve the chat history, then either the
fallback path (raw document snippets) or the normal path (vector retrieval
with k = 5, returning the fixed not-found message without any
text-generation call when no chunks come back). -/
def generate_answer (env : Env) (dist : List ℚ → List ℚ → ℚ) (db : DBState)
    (p : GenParams) : AnswerResult :=
  match env.parseUUID p.courseId with
  | none => ⟨msg_bad_course, 0⟩
  | some course_uuid =>
    let history := match p.chat_history with
      | some h => h
      | none =>
        if p.userId ≠ anonUser then
          match env.parseUUID p.userId with
          | some u => env.history u course_uuid
          | none => []
        else []
    if p.use_fallback then
      let mats := (get_course_materials_processed db course_uuid).take 3
      let fc := fallback_contexts env mats
      if fc.1.isEmpty then ⟨msg_fallback_no_content, 0⟩
      else answerWithLLM env fc.1 history p.query true
    else
      let r := retrieve_with_context env dist db p.query course_uuid 5
      if r.chunks.isEmpty then ⟨msg_not_found, 0⟩
      else answerWithLLM env r.chunks history p.query false

/-! Concrete fixtures for witnesses and counterexamples. -/

def matPending : Material :=
  { id := 1, course_id := 2, file_name := "notes.pdf".toList,
    file_type := some ("pdf".toList), s3_key := "courses/2/materials/1/notes.pdf".toList,
    is_processed := false, processing_status := st_pending, meta := [], uploaded_at := 0 }

def matProcessed : Material :=
  { matPending with id := 3, is_processed := true, processing_status := st_completed }

def dbPending : DBState := ⟨[matPending], []⟩

def dbProcessed : DBState := ⟨[matProcessed], []⟩

/-- An environment whose blob download raises: everything else succeeds. -/
def envDownloadFails : Env :=
  { embed := fun _ => some [1], download := fun _ => none, storeOk := true,
    storeErr := [], llm := fun _ _ => some ("ok".toList), history := fun _ _ => [],
    parseUUID := fun _ => none }

/-- An environment whose blob download returns empty text. -/
def envEmptyDoc : Env := { envDownloadFails with download := fun _ => some [] }

/-- An environment where everything succeeds on a one-token document. -/
def envHappy : Env := { envDownloadFails with download := fun _ => some ("a".toList) }

/-- The post-states the status-consistency claim allows after an ingestion
attempt: completed with an embedding present, failed with no orphaned
embeddings, or the material unchanged in pending. -/
def StatusConsistent (db0 db1 : DBState) (mid : ℕ) : Prop :=
  (statusOf db1 mid = some st_completed ∧ 1 ≤ embCount db1 mid) ∨
  (statusOf db1 mid = some st_failed ∧ embCount db1 mid = 0) ∨
  (get_by_id db1 mid = get_by_id db0 mid ∧ statusOf db0 mid = some st_pending ∧
    embCount db1 mid = embCount db0 mid)

instance (db0 db1 : DBState) (mid : ℕ) : Decidable (StatusConsistent db0 db1 mid) := by
  unfold StatusConsistent
  infer_instance

/-- An environment where extraction succeeds on a one-token document but
every embedding call raises. -/
def envNoEmbed : Env :=
  { envDownloadFails with download := fun _ => some ("a".toList), embed := fun _ => none }

def envC7 : Env :=
  { envDownloadFails with parseUUID := fun _ => some 2, embed := fun _ => none }

def distZero : List ℚ → List ℚ → ℚ := fun _ _ => 0

def gpC7 : GenParams :=
  { query := "q".toList, userId := anonUser, courseId := "2".toList,
    chat_history := none, use_fallback := false }

/-! Support for the grouping claim. -/

def assocFind (l : List (ℕ × MaterialGroup)) (mid : ℕ) : Option MaterialGroup :=
  (l.find? (fun q => decide (q.1 = mid))).map (fun q => q.2)

/-- The expected group of one material: file information from the first of
its results, and all of its (text, chunk_index) entries in result order. -/
def groupSpec (results : List RetrievedChunk) (mid : ℕ) : Option MaterialGroup :=
  match results.filter (fun r => decide (r.material_id = mid)) with
  | [] => none
  | r :: rest =>
    some ⟨r.file_name, r.file_type, (r :: rest).map (fun x => (x.text, x.chunk_index))⟩

def embA : VectorEmbedding :=
  { material_id := 1, course_id := 2, chunk_text := "alpha".toList, chunk_index := 0,
    embedding := [1, 0], meta := [] }

def embB : VectorEmbedding :=
  { embA with chunk_text := "beta".toList, chunk_index := 1, embedding := [0, 1] }

def dbTwoChunks : DBState := ⟨[matPending], [embA, embB]⟩

/-- An environment whose query embedding is the unit vector [0, 1]. -/
def envC8 : Env := { envDownloadFails with embed := fun _ => some [0, 1] }

/-- The values the external cosine-distance operator takes on the fixture's
unit vectors: distance 0 when the stored vector equals the query vector and 1
when it is orthogonal to it — exactly the cosine distances of [0, 1] and
[1, 0] to the query [0, 1]. -/
def dotDist : List ℚ → List ℚ → ℚ := fun a b => if a = b then 0 else 1

/-- Whether a group lists its chunk entries in ascending chunk-index order. -/
def indexSorted : List (PyStr × ℕ) → Bool
  | [] => true
  | a :: rest =>
    match rest with
    | [] => true
    | b :: rest2 => decide (a.2 ≤ b.2) && indexSorted (b :: rest2)

theorem pySplit_nil : pySplit [] = [] := rfl

theorem pySplit_cons_ws {c : Char} (rest : PyStr) (h : c.isWhitespace = true) :
    pySplit (c :: rest) = pySplit rest := by
  simp [pySplit, pySplitGo, h]

/-- With a nonempty all-non-whitespace accumulator, the worker emits the
accumulated characters followed by the longest non-whitespace run, then
restarts on the remainder. -/
theorem pySplitGo_acc (s : PyStr) :
    ∀ cur : PyStr, cur ≠ [] →
      pySplitGo cur s = (cur.reverse ++ s.takeWhile notWs) :: pySplit (s.dropWhile notWs) := by
  induction s with
  | nil =>
    intro cur hcur
    have hcur' : cur.isEmpty = false := by simp [List.isEmpty_iff, hcur]
    simp [pySplitGo, hcur', pySplit_nil]
  | cons c rest ih =>
    intro cur hcur
    have hcur' : cur.isEmpty = false := by simp [List.isEmpty_iff, hcur]
    by_cases hc : c.isWhitespace
    · have hnw : notWs c = false := by simp [notWs, hc]
      simp only [pySplitGo, hc, if_true, hcur', Bool.false_eq_true, if_false,
        List.takeWhile_cons, hnw, List.dropWhile_cons, List.append_nil]
      rw [pySplit_cons_ws rest hc]
      rfl
    · have hcf : c.isWhitespace = false := by
        revert hc
        cases c.isWhitespace <;> simp
      have hnw : notWs c = true := by simp [notWs, hcf]
      simp only [pySplitGo, hcf, Bool.false_eq_true, if_false, List.takeWhile_cons, hnw,
        if_true, List.dropWhile_cons]
      rw [ih (c :: cur) (by simp)]
      simp

theorem pySplit_cons_nws {c : Char} (rest : PyStr) (h : c.isWhitespace = false) :
    pySplit (c :: rest) =
      (c :: rest.takeWhile notWs) :: pySplit (rest.dropWhile notWs) := by
  show pySplitGo [] (c :: rest) = _
  simp only [pySplitGo, h, Bool.false_eq_true, if_false]
  rw [pySplitGo_acc rest [c] (by simp)]
  rfl

theorem joinSpace_cons (w : PyStr) {ws : List PyStr} (h : ws ≠ []) :
    joinSpace (w :: ws) = w ++ ' ' :: joinSpace ws := by
  cases ws with
  | nil => exact absurd rfl h
  | cons w2 ws2 => rfl

theorem stridePrefixJoin_cons {α : Type} (st : ℕ) (w : List α) {ws : List (List α)}
    (h : ws ≠ []) :
    stridePrefixJoin st (w :: ws) = w.take st ++ stridePrefixJoin st ws := by
  cases ws with
  | nil => exact absurd rfl h
  | cons w2 ws2 => rfl

theorem overlapOk_cons₂ {α : Type} [DecidableEq α] (ov : ℕ) (w1 w2 : List α)
    (ws : List (List α)) :
    overlapOk ov (w1 :: w2 :: ws) =
      (decide (ov ≤ w1.length) && decide (ov ≤ w2.length) &&
        decide (w1.drop (w1.length - ov) = w2.take ov) && overlapOk ov (w2 :: ws)) := rfl

theorem takeWhile_append_of_all {α : Type} (p : α → Bool) {l1 : List α} (l2 : List α)
    (h : ∀ a ∈ l1, p a = true) :
    (l1 ++ l2).takeWhile p = l1 ++ l2.takeWhile p := by
  induction l1 with
  | nil => simp
  | cons a l ih =>
    have ha : p a = true := h a (by simp)
    have hrec : (l ++ l2).takeWhile p = l ++ l2.takeWhile p :=
      ih (fun b hb => h b (by simp [hb]))
    simp [List.takeWhile_cons, ha, hrec]

theorem dropWhile_append_of_all {α : Type} (p : α → Bool) {l1 : List α} (l2 : List α)
    (h : ∀ a ∈ l1, p a = true) :
    (l1 ++ l2).dropWhile p = l2.dropWhile p := by
  induction l1 with
  | nil => simp
  | cons a l ih =>
    have ha : p a = true := h a (by simp)
    simp only [List.cons_append, List.dropWhile_cons, ha]
    exact ih (fun b hb => h b (by simp [hb]))

theorem pySplitGo_tokens_valid (s : PyStr) :
    ∀ cur : PyStr, (∀ c ∈ cur, notWs c = true) →
      ∀ w ∈ pySplitGo cur s, w ≠ [] ∧ ∀ c ∈ w, notWs c = true := by
  induction s with
  | nil =>
    intro cur hcur w hw
    by_cases h : cur.isEmpty
    · simp [pySplitGo, h] at hw
    · simp only [pySplitGo, h, Bool.false_eq_true, if_false, List.mem_singleton] at hw
      subst hw
      refine ⟨by simpa [List.isEmpty_iff] using h, ?_⟩
      intro c hc
      exact hcur c (List.mem_reverse.mp hc)
  | cons c rest ih =>
    intro cur hcur w hw
    by_cases hc : c.isWhitespace
    · simp only [pySplitGo, hc, if_true] at hw
      by_cases h0 : cur.isEmpty
      · rw [if_pos h0] at hw
        exact ih [] (by simp) w hw
      · rw [if_neg h0, List.mem_cons] at hw
        rcases hw with hw | hw
        · subst hw
          refine ⟨by simpa [List.isEmpty_iff] using h0, ?_⟩
          intro d hd
          exact hcur d (List.mem_reverse.mp hd)
        · exact ih [] (by simp) w hw
    · have hcf : c.isWhitespace = false := by
        revert hc
        cases c.isWhitespace <;> simp
      simp only [pySplitGo, hcf, Bool.false_eq_true, if_false] at hw
      refine ih (c :: cur) ?_ w hw
      intro d hd
      rcases List.mem_cons.mp hd with hd | hd
      · subst hd
        simp [notWs, hcf]
      · exact hcur d hd

/-- Every token produced by pySplit is nonempty and contains no whitespace. -/
theorem pySplit_tokens_valid (s : PyStr) :
    ∀ w ∈ pySplit s, w ≠ [] ∧ ∀ c ∈ w, notWs c = true :=
  pySplitGo_tokens_valid s [] (by simp)

theorem pySplit_word (w : PyStr) (hw : w ≠ []) (hall : ∀ c ∈ w, notWs c = true) :
    ∀ rest : PyStr, pySplit (w ++ ' ' :: rest) = w :: pySplit rest := by
  intro rest
  cases w with
  | nil => exact absurd rfl hw
  | cons c w' =>
    have hc : c.isWhitespace = false := by
      have := hall c (by simp)
      simpa [notWs] using this
    have hall' : ∀ a ∈ w', notWs a = true := fun a ha => hall a (by simp [ha])
    rw [List.cons_append, pySplit_cons_nws _ hc,
      takeWhile_append_of_all notWs _ hall', dropWhile_append_of_all notWs _ hall']
    have hsp : notWs ' ' = false := by simp [notWs]
    simp only [List.takeWhile_cons, hsp, List.dropWhile_cons, Bool.false_eq_true, if_false]
    rw [List.append_nil, pySplit_cons_ws rest (by simp)]

theorem pySplit_single (w : PyStr) (hw : w ≠ []) (hall : ∀ c ∈ w, notWs c = true) :
    pySplit w = [w] := by
  cases w with
  | nil => exact absurd rfl hw
  | cons c w' =>
    have hc : c.isWhitespace = false := by
      have := hall c (by simp)
      simpa [notWs] using this
    have hall' : ∀ a ∈ w', notWs a = true := fun a ha => hall a (by simp [ha])
    rw [pySplit_cons_nws _ hc, List.takeWhile_eq_self_iff.mpr hall',
      List.dropWhile_eq_nil_iff.mpr hall', pySplit_nil]

/-- Splitting the space-joined token list gives back the tokens, provided each
token is nonempty and whitespace-free (as all pySplit tokens are). -/
theorem pySplit_joinSpace (ws : List PyStr)
    (h : ∀ w ∈ ws, w ≠ [] ∧ ∀ c ∈ w, notWs c = true) :
    pySplit (joinSpace ws) = ws := by
  induction ws with
  | nil => simpa using pySplit_nil
  | cons w ws ih =>
    rcases h w (by simp) with ⟨hw, hall⟩
    cases ws with
    | nil => exact pySplit_single w hw hall
    | cons w2 ws2 =>
      rw [joinSpace_cons w (by simp), pySplit_word w hw hall,
        ih (fun v hv => h v (by simp [hv]))]

/-! Relating the fuel-based loop to the window-level specification. -/

theorem pySlice_natCast {α : Type} (l : List α) (start e : ℕ) (hs : start ≤ l.length)
    (he : e ≤ l.length) :
    pySlice l (start : ℤ) (e : ℤ) = (l.take e).drop start := by
  unfold pySlice pyIdx
  rw [if_neg (by omega), if_neg (by omega), Int.toNat_natCast, Int.toNat_natCast,
    min_eq_left he, min_eq_left hs]

theorem chunksFrom_eq_cons (tokens : List PyStr) (cs ov start : ℕ)
    (h1 : start < tokens.length) (h2 : ov < cs) :
    chunksFrom tokens cs ov start =
      (tokens.drop start).take (min (start + cs) tokens.length - start) ::
        chunksFrom tokens cs ov (start + (cs - ov)) := by
  rw [chunksFrom, dif_pos ⟨h1, h2⟩]

theorem chunksFrom_eq_nil (tokens : List PyStr) (cs ov start : ℕ)
    (h : ¬(start < tokens.length ∧ ov < cs)) :
    chunksFrom tokens cs ov start = [] := by
  rw [chunksFrom, dif_neg h]

/-- With overlap < chunk_size and enough fuel, the while loop of chunk_text
computes exactly the joined token windows described by chunksFrom. -/
theorem chunkLoop_eq_chunksFrom (tokens : List PyStr) (cs ov : ℕ) (hov : ov < cs) :
    ∀ (fuel start : ℕ), tokens.length ≤ start + fuel * (cs - ov) →
      chunkLoop tokens (cs : ℤ) (ov : ℤ) fuel (start : ℤ) =
        some ((chunksFrom tokens cs ov start).map joinSpace) := by
  intro fuel
  induction fuel with
  | zero =>
    intro start h
    rw [chunkLoop, if_neg (by exact_mod_cast (by omega : ¬(start < tokens.length))),
      chunksFrom_eq_nil tokens cs ov start (by omega), List.map_nil]
  | succ fuel ih =>
    intro start h
    by_cases hlt : start < tokens.length
    · rw [chunkLoop, if_pos (by exact_mod_cast hlt)]
      have hcast : (start : ℤ) + ((cs : ℤ) - (ov : ℤ)) = ((start + (cs - ov) : ℕ) : ℤ) := by
        push_cast [Nat.cast_sub (le_of_lt hov)]
        ring
      rw [hcast, ih (start + (cs - ov)) (by rw [Nat.succ_mul] at h; omega)]
      have hmin : min ((start : ℤ) + (cs : ℤ)) ((tokens.length : ℕ) : ℤ) =
          ((min (start + cs) tokens.length : ℕ) : ℤ) := by
        push_cast
        rfl
      rw [hmin, pySlice_natCast tokens start (min (start + cs) tokens.length)
        (le_of_lt hlt) (by omega)]
      rw [chunksFrom_eq_cons tokens cs ov start hlt hov, List.map_cons, List.drop_take]
      rfl
    · rw [chunkLoop, if_neg (by exact_mod_cast hlt),
        chunksFrom_eq_nil tokens cs ov start (by omega), List.map_nil]

/-- With the Python default parameters (500, 50), chunk_text always returns
its chunk list: the fuel len(tokens) + 1 is sufficient. -/
theorem chunk_text_default_eq (text : PyStr) :
    chunk_text text 500 50 =
      some ((chunksFrom (pySplit text) 500 50 0).map joinSpace) := by
  unfold chunk_text
  have h := chunkLoop_eq_chunksFrom (pySplit text) 500 50 (by omega)
    ((pySplit text).length + 1) 0 (by omega)
  exact_mod_cast h

/-- A positive integer stride makes the loop terminate: enough fuel returns
some result. -/
theorem chunkLoop_isSome_of_stride_pos (tokens : List PyStr) (cs ov : ℤ)
    (hov : ov < cs) :
    ∀ (fuel : ℕ) (start : ℤ), (tokens.length : ℤ) ≤ start + fuel * (cs - ov) →
      (chunkLoop tokens cs ov fuel start).isSome := by
  intro fuel
  induction fuel with
  | zero =>
    intro start h
    rw [chunkLoop, if_neg (by push_cast at h ⊢; omega)]
    rfl
  | succ fuel ih =>
    intro start h
    by_cases hlt : start < (tokens.length : ℤ)
    · rw [chunkLoop, if_pos hlt]
      have hstep : ((fuel + 1 : ℕ) : ℤ) * (cs - ov) = (fuel : ℤ) * (cs - ov) + (cs - ov) := by
        push_cast
        ring
      have := ih (start + (cs - ov)) (by rw [hstep] at h; omega)
      rcases Option.isSome_iff_exists.mp this with ⟨v, hv⟩
      rw [hv]
      rfl
    · rw [chunkLoop, if_neg hlt]
      rfl

/-- A nonpositive stride keeps the loop condition true forever: every fuel
value is exhausted. -/
theorem chunkLoop_none_of_stride_nonpos (tokens : List PyStr) (cs ov : ℤ)
    (hov : cs ≤ ov) :
    ∀ (fuel : ℕ) (start : ℤ), start < (tokens.length : ℤ) →
      chunkLoop tokens cs ov fuel start = none := by
  intro fuel
  induction fuel with
  | zero =>
    intro start h
    rw [chunkLoop, if_pos h]
  | succ fuel ih =>
    intro start h
    rw [chunkLoop, if_pos h, ih (start + (cs - ov)) (by omega)]
    rfl

/-- The window starting positions never leave ℕ, and the reconstruction
property: taking the first 450 tokens of every window but the last and the
whole last window rebuilds the token list from the start position. -/
theorem chunksFrom_recon (tokens : List PyStr) :
    ∀ (start : ℕ),
      stridePrefixJoin 450 (chunksFrom tokens 500 50 start) = tokens.drop start := by
  have H : ∀ (d start : ℕ), tokens.length - start ≤ d →
      stridePrefixJoin 450 (chunksFrom tokens 500 50 start) = tokens.drop start := by
    intro d
    induction d with
    | zero =>
      intro start h
      rw [chunksFrom_eq_nil tokens 500 50 start (by omega),
        List.drop_eq_nil_iff.mpr (by omega : tokens.length ≤ start)]
      rfl
    | succ d ih =>
      intro start h
      by_cases hs : start < tokens.length
      · rw [chunksFrom_eq_cons tokens 500 50 start hs (by omega)]
        by_cases h2 : start + 450 < tokens.length
        · have hne : chunksFrom tokens 500 50 (start + (500 - 50)) ≠ [] := by
            rw [chunksFrom_eq_cons tokens 500 50 _ (by omega) (by omega)]
            simp
          rw [stridePrefixJoin_cons 450 _ hne, ih (start + (500 - 50)) (by omega)]
          have hmin : min (start + 500) tokens.length - start ≥ 450 := by omega
          rw [List.take_take, min_eq_left hmin]
          have : tokens.drop (start + (500 - 50)) = (tokens.drop start).drop 450 := by
            rw [List.drop_drop]
          rw [this, List.take_append_drop]
        · rw [chunksFrom_eq_nil tokens 500 50 (start + (500 - 50)) (by omega)]
          show (tokens.drop start).take (min (start + 500) tokens.length - start) =
            tokens.drop start
          rw [min_eq_right (by omega), List.take_of_length_le (by rw [List.length_drop])]
      · rw [chunksFrom_eq_nil tokens 500 50 start (by omega),
          List.drop_eq_nil_iff.mpr (by omega : tokens.length ≤ start)]
        rfl
  intro start
  exact H (tokens.length - start) start le_rfl

/-- When the token count from the start position is a multiple of the stride
or leaves a remainder of at least the overlap, every pair of consecutive
windows overlaps in exactly 50 tokens. -/
theorem chunksFrom_overlap (tokens : List PyStr) :
    ∀ (start : ℕ),
      (tokens.length - start) % 450 = 0 ∨ 50 ≤ (tokens.length - start) % 450 →
      overlapOk 50 (chunksFrom tokens 500 50 start) = true := by
  have H : ∀ (d start : ℕ), tokens.length - start ≤ d →
      (tokens.length - start) % 450 = 0 ∨ 50 ≤ (tokens.length - start) % 450 →
      overlapOk 50 (chunksFrom tokens 500 50 start) = true := by
    intro d
    induction d with
    | zero =>
      intro start h _
      rw [chunksFrom_eq_nil tokens 500 50 start (by omega)]
      rfl
    | succ d ih =>
      intro start h hres
      by_cases hs : start < tokens.length
      · by_cases h2 : start + 450 < tokens.length
        · have hlen : start + 500 ≤ tokens.length := by omega
          rw [chunksFrom_eq_cons tokens 500 50 start hs (by omega),
            chunksFrom_eq_cons tokens 500 50 (start + (500 - 50)) (by omega) (by omega),
            overlapOk_cons₂]
          have hw1 : (tokens.drop start).take (min (start + 500) tokens.length - start) =
              (tokens.drop start).take 500 := by
            rw [min_eq_left (by omega)]
            congr 1
            omega
          have hlen1 : ((tokens.drop start).take 500).length = 500 := by
            rw [List.length_take, List.length_drop]
            omega
          have hlen2 :
              ((tokens.drop (start + (500 - 50))).take
                (min (start + (500 - 50) + 500) tokens.length - (start + (500 - 50)))).length =
              min 500 (tokens.length - (start + 450)) := by
            rw [List.length_take, List.length_drop]
            omega
          rw [hw1]
          have hdropeq : ((tokens.drop start).take 500).drop 450 =
              (tokens.drop (start + (500 - 50))).take 50 := by
            rw [List.drop_take]
            have : (tokens.drop start).drop 450 = tokens.drop (start + (500 - 50)) := by
              rw [List.drop_drop]
            rw [this]
          have hrec := ih (start + (500 - 50)) (by omega) (by omega)
          rw [chunksFrom_eq_cons tokens 500 50 (start + (500 - 50)) (by omega) (by omega)]
            at hrec
          rw [hrec]
          have hb1 : decide (50 ≤ ((tokens.drop start).take 500).length) = true := by
            rw [decide_eq_true_eq, hlen1]
            omega
          have hb2 : decide (50 ≤ ((tokens.drop (start + (500 - 50))).take
              (min (start + (500 - 50) + 500) tokens.length -
                (start + (500 - 50)))).length) = true := by
            rw [decide_eq_true_eq, hlen2]
            omega
          have hb3 : decide (((tokens.drop start).take 500).drop
              (((tokens.drop start).take 500).length - 50) =
              ((tokens.drop (start + (500 - 50))).take
                (min (start + (500 - 50) + 500) tokens.length -
                  (start + (500 - 50)))).take 50) = true := by
            rw [decide_eq_true_eq, hlen1, hdropeq, List.take_take, min_eq_left (by omega)]
          rw [hb1, hb2, hb3]
          rfl
        · rw [chunksFrom_eq_cons tokens 500 50 start hs (by omega),
            chunksFrom_eq_nil tokens 500 50 (start + (500 - 50)) (by omega)]
          rfl
      · rw [chunksFrom_eq_nil tokens 500 50 start (by omega)]
        rfl
  intro start hres
  exact H (tokens.length - start) start le_rfl hres

/-- Every token of every window produced by chunksFrom is a token of the
input list. -/
theorem chunksFrom_mem_subset (tokens : List PyStr) (cs ov : ℕ) :
    ∀ (start : ℕ), ∀ w ∈ chunksFrom tokens cs ov start, ∀ t ∈ w, t ∈ tokens := by
  have H : ∀ (d start : ℕ), tokens.length - start ≤ d →
      ∀ w ∈ chunksFrom tokens cs ov start, ∀ t ∈ w, t ∈ tokens := by
    intro d
    induction d with
    | zero =>
      intro start h w hw
      rw [chunksFrom_eq_nil tokens cs ov start (by omega)] at hw
      simp at hw
    | succ d ih =>
      intro start h w hw
      by_cases hs : start < tokens.length ∧ ov < cs
      · rw [chunksFrom_eq_cons tokens cs ov start hs.1 hs.2, List.mem_cons] at hw
        rcases hw with hw | hw
        · subst hw
          intro t ht
          exact (List.drop_sublist start tokens).subset (List.mem_of_mem_take ht)
        · exact ih (start + (cs - ov)) (by omega) w hw
      · rw [chunksFrom_eq_nil tokens cs ov start hs] at hw
        simp at hw
  intro start
  exact H (tokens.length - start) start le_rfl

/-- Re-splitting the chunk strings recovers the token windows. -/
theorem chunksFrom_map_pySplit (text : PyStr) :
    ((chunksFrom (pySplit text) 500 50 0).map joinSpace).map pySplit =
      chunksFrom (pySplit text) 500 50 0 := by
  rw [List.map_map]
  have : ∀ w ∈ chunksFrom (pySplit text) 500 50 0, (pySplit ∘ joinSpace) w = w := by
    intro w hw
    apply pySplit_joinSpace
    intro t ht
    exact pySplit_tokens_valid text t
      (chunksFrom_mem_subset (pySplit text) 500 50 0 w hw t ht)
  calc (chunksFrom (pySplit text) 500 50 0).map (pySplit ∘ joinSpace)
      = (chunksFrom (pySplit text) 500 50 0).map id := List.map_congr_left this
    _ = _ := List.map_id _

/-- C5 (amended): the chunker is deterministic and, with the default
parameters, always returns a chunk list; an input with at least one
whitespace-separated token yields at least one chunk, and an input with no
tokens (empty or whitespace-only) yields zero chunks. -/
theorem c5_chunker_determinism (text : PyStr) :
    chunk_text text 500 50 = chunk_text text 500 50 ∧
    ∃ chunks, chunk_text text 500 50 = some chunks ∧
      (pySplit text ≠ [] → chunks ≠ []) ∧
      (pySplit text = [] → chunks = []) := by
  refine ⟨rfl, (chunksFrom (pySplit text) 500 50 0).map joinSpace,
    chunk_text_default_eq text, ?_, ?_⟩
  · intro h
    rw [chunksFrom_eq_cons (pySplit text) 500 50 0
      (by have := List.length_pos.mpr h; omega) (by omega)]
    simp
  · intro h
    rw [chunksFrom_eq_nil (pySplit text) 500 50 0 (by rw [h]; simp)]
    rfl

/-- C5 witness: evaluation of the amended claim at concrete inputs. -/
theorem c5_witness :
    (pySplit ("a b".toList) ≠ [] ∧
      ∃ chunks, chunk_text ("a b".toList) 500 50 = some chunks ∧ chunks ≠ []) ∧
    (pySplit ("".toList) = [] ∧
      ∃ chunks, chunk_text ("".toList) 500 50 = some chunks ∧ chunks = []) := by
  have h1 := c5_chunker_determinism ("a b".toList)
  have h2 := c5_chunker_determinism ("".toList)
  rcases h1.2 with ⟨c1, hc1, hne, _⟩
  rcases h2.2 with ⟨c2, hc2, _, hnil⟩
  exact ⟨⟨by decide, c1, hc1, hne (by decide)⟩, ⟨by decide, c2, hc2, hnil (by decide)⟩⟩

/-- C5 counterexample: a whitespace-only text is a non-empty input on which
chunk_text produces zero chunks, refuting the claim that every non-empty
input yields at least one chunk. -/
theorem c5_counterexample :
    (" ".toList : PyStr) ≠ [] ∧ chunk_text (" ".toList) 500 50 = some [] := by
  exact ⟨by decide, by decide⟩

/-- C6 (amended): for every text, concatenating the first 450 tokens of every
chunk except the last, followed by the last chunk in full, reconstructs the
whitespace-token sequence of the text; and when the token count is a
multiple of 450 or leaves a remainder of at least 50, consecutive chunks
overlap in exactly 50 tokens. -/
theorem c6_chunk_coverage (text : PyStr) (chunks : List PyStr)
    (h : chunk_text text 500 50 = some chunks) :
    stridePrefixJoin 450 (chunks.map pySplit) = pySplit text ∧
    ((pySplit text).length % 450 = 0 ∨ 50 ≤ (pySplit text).length % 450 →
      overlapOk 50 (chunks.map pySplit) = true) := by
  rw [chunk_text_default_eq text] at h
  have hc : chunks = (chunksFrom (pySplit text) 500 50 0).map joinSpace :=
    (Option.some.inj h).symm
  subst hc
  rw [chunksFrom_map_pySplit text]
  constructor
  · rw [chunksFrom_recon (pySplit text) 0, List.drop_zero]
  · intro hres
    apply chunksFrom_overlap (pySplit text) 0
    rw [Nat.sub_zero]
    exact hres

theorem replicate_a_valid (n : ℕ) :
    ∀ w ∈ List.replicate n (['a'] : PyStr), w ≠ [] ∧ ∀ c ∈ w, notWs c = true := by
  intro w hw
  rw [List.eq_of_mem_replicate hw]
  exact ⟨by decide, by decide⟩

theorem pySplit_repA (n : ℕ) :
    pySplit (joinSpace (List.replicate n (['a'] : PyStr))) = List.replicate n ['a'] :=
  pySplit_joinSpace _ (replicate_a_valid n)

theorem chunksFrom_rep450 :
    chunksFrom (List.replicate 450 (['a'] : PyStr)) 500 50 0 =
      [List.replicate 450 ['a']] := by
  rw [chunksFrom_eq_cons _ 500 50 0 (by simp) (by omega),
    chunksFrom_eq_nil _ 500 50 (0 + (500 - 50)) (by simp)]
  simp [List.take_replicate]

theorem chunksFrom_rep451 :
    chunksFrom (List.replicate 451 (['a'] : PyStr)) 500 50 0 =
      [List.replicate 451 ['a'], List.replicate 1 ['a']] := by
  rw [chunksFrom_eq_cons _ 500 50 0 (by simp) (by omega),
    chunksFrom_eq_cons _ 500 50 (0 + (500 - 50)) (by simp) (by omega),
    chunksFrom_eq_nil _ 500 50 (0 + (500 - 50) + (500 - 50)) (by simp)]
  simp [List.take_replicate, List.drop_replicate]

/-- C6 witness: the amended coverage claim evaluated on a 450-token text
(450 tokens is a multiple of the stride, so the overlap condition applies). -/
theorem c6_witness :
    stridePrefixJoin 450
        ([joinSpace (List.replicate 450 (['a'] : PyStr))].map pySplit) =
      pySplit (joinSpace (List.replicate 450 (['a'] : PyStr))) ∧
    overlapOk 50 ([joinSpace (List.replicate 450 (['a'] : PyStr))].map pySplit) = true := by
  have h : chunk_text (joinSpace (List.replicate 450 (['a'] : PyStr))) 500 50 =
      some [joinSpace (List.replicate 450 ['a'])] := by
    rw [chunk_text_default_eq, pySplit_repA 450, chunksFrom_rep450]
    rfl
  have hcc := c6_chunk_coverage (joinSpace (List.replicate 450 (['a'] : PyStr)))
    [joinSpace (List.replicate 450 ['a'])] h
  exact ⟨hcc.1, hcc.2 (by rw [pySplit_repA 450]; simp)⟩

/-- C6 counterexample: a 451-token text has two chunks (so it is long enough
for a consecutive pair to exist), yet the pair overlaps in a single token
rather than 50, refuting the exact-overlap part of the claim. -/
theorem c6_counterexample :
    chunk_text (joinSpace (List.replicate 451 (['a'] : PyStr))) 500 50 =
      some [joinSpace (List.replicate 451 (['a'] : PyStr)),
        joinSpace (List.replicate 1 (['a'] : PyStr))] ∧
    overlapOk 50
      ([joinSpace (List.replicate 451 (['a'] : PyStr)),
        joinSpace (List.replicate 1 (['a'] : PyStr))].map pySplit) = false := by
  constructor
  · rw [chunk_text_default_eq, pySplit_repA 451, chunksFrom_rep451]
    rfl
  · rw [List.map_cons, List.map_cons, List.map_nil, pySplit_repA 451, pySplit_repA 1]
    decide

/-- C10: the chunk_text loop terminates for every text whenever
overlap < chunk_size (the loop variable advances by the positive stride
chunk_size - overlap each step), while for any text with at least one
whitespace token and overlap >= chunk_size no fuel bound makes it exit, so
overlap < chunk_size is exactly the termination precondition; the defaults
(500, 50) satisfy it. -/
theorem c10_chunk_text_termination (text : PyStr) (chunk_size overlap : ℤ) :
    (overlap < chunk_size → ChunkTerminates (pySplit text) chunk_size overlap) ∧
    (chunk_size ≤ overlap → pySplit text ≠ [] →
      ¬ChunkTerminates (pySplit text) chunk_size overlap) := by
  constructor
  · intro h
    refine ⟨(pySplit text).length + 1, ?_⟩
    apply chunkLoop_isSome_of_stride_pos _ _ _ h
    have h1 : (1 : ℤ) ≤ chunk_size - overlap := by omega
    have h2 : (((pySplit text).length + 1 : ℕ) : ℤ) * 1 ≤
        (((pySplit text).length + 1 : ℕ) : ℤ) * (chunk_size - overlap) :=
      mul_le_mul_of_nonneg_left h1 (by positivity)
    rw [mul_one] at h2
    push_cast at h2 ⊢
    linarith
  · rintro h hne ⟨fuel, hsome⟩
    rw [chunkLoop_none_of_stride_nonpos (pySplit text) chunk_size overlap h fuel 0
      (by exact_mod_cast List.length_pos.mpr hne)] at hsome
    simp at hsome

/-- C10 witness: the default parameters terminate on a two-token text, and
overlap = chunk_size loops forever on the same text. -/
theorem c10_witness :
    ChunkTerminates (pySplit ("a b".toList)) 500 50 ∧
    ¬ChunkTerminates (pySplit ("a b".toList)) 500 500 :=
  ⟨(c10_chunk_text_termination ("a b".toList) 500 50).1 (by norm_num),
    (c10_chunk_text_termination ("a b".toList) 500 500).2 (by norm_num) (by decide)⟩

/-! Claim theorems on the embedding store. -/

/-- C3: similarity_search returns only embeddings of the queried course (never
one of another course, whatever its distance), at most k results, ordered
ascending by the distance operator applied to the query vector (dist stands
for the external pgvector cosine_distance operator). -/
theorem c3_similarity_search_scoping (dist : List ℚ → List ℚ → ℚ) (db : DBState)
    (course_id : ℕ) (q : List ℚ) (k : ℕ) :
    (∀ e ∈ similarity_search dist db course_id q k, e.course_id = course_id) ∧
    (similarity_search dist db course_id q k).length ≤ k ∧
    (similarity_search dist db course_id q k).Sorted
      (fun a b => dist a.embedding q ≤ dist b.embedding q) := by
  refine ⟨?_, ?_, ?_⟩
  · intro e he
    unfold similarity_search at he
    have h1 := List.mem_of_mem_take he
    have h2 := (List.perm_insertionSort
      (fun a b : VectorEmbedding => dist a.embedding q ≤ dist b.embedding q) _).mem_iff.mp h1
    have h3 := (List.mem_filter.mp h2).2
    exact of_decide_eq_true h3
  · unfold similarity_search
    rw [List.length_take]
    exact min_le_left _ _
  · unfold similarity_search
    haveI : IsTotal VectorEmbedding
        (fun a b => dist a.embedding q ≤ dist b.embedding q) :=
      ⟨fun a b => le_total _ _⟩
    haveI : IsTrans VectorEmbedding
        (fun a b => dist a.embedding q ≤ dist b.embedding q) :=
      ⟨fun _ _ _ hab hbc => le_trans hab hbc⟩
    exact List.Pairwise.sublist (List.take_sublist _ _)
      (List.sorted_insertionSort _ _)

/-- The texts surviving the per-chunk embedding loop are exactly the chunks
whose embedding call succeeds, in their original relative order. -/
theorem embedChunks_map_text (env : Env) (chunks : List PyStr) :
    (embedChunks env chunks).map (fun c => c.text) =
      chunks.filter (fun c => (env.embed c).isSome) := by
  induction chunks with
  | nil => rfl
  | cons c cs ih =>
    unfold embedChunks at ih ⊢
    rw [List.filterMap_cons, List.filter_cons]
    cases h : env.embed c with
    | none => simp [h, ih]
    | some v => simp [h, ih]

/-- C4: create_embeddings on the surviving chunks stores one record per
surviving chunk, with chunk indices exactly 0..M-1 (M the number of
survivors), and texts equal to the successfully embedded chunks in their
original relative order (skipped chunks shift later indices down). -/
theorem c4_index_contiguity (env : Env) (material_id course_id : ℕ)
    (chunks : List PyStr) :
    (create_embeddings_records material_id course_id (embedChunks env chunks)).length =
      (embedChunks env chunks).length ∧
    (create_embeddings_records material_id course_id (embedChunks env chunks)).map
        (fun r => r.chunk_index) = List.range (embedChunks env chunks).length ∧
    (create_embeddings_records material_id course_id (embedChunks env chunks)).map
        (fun r => r.chunk_text) = chunks.filter (fun c => (env.embed c).isSome) := by
  refine ⟨?_, ?_, ?_⟩
  · unfold create_embeddings_records
    rw [List.length_map, List.enum_length]
  · unfold create_embeddings_records
    rw [List.map_map]
    exact List.enum_map_fst (embedChunks env chunks)
  · unfold create_embeddings_records
    rw [List.map_map]
    show (embedChunks env chunks).enum.map (fun p => p.2.text) =
      chunks.filter (fun c => (env.embed c).isSome)
    have h : (embedChunks env chunks).enum.map (fun p : ℕ × ChunkData => p.2.text) =
        ((embedChunks env chunks).enum.map Prod.snd).map (fun c => c.text) := by
      rw [List.map_map]
      rfl
    rw [h, List.enum_map_snd, embedChunks_map_text]

/-! Support lemmas for the ingestion claims. -/

/-- When the material is found and no metadata is passed,
update_processing_status succeeds and returns the field-updated database. -/
theorem update_nometa (db : DBState) (mid : ℕ) (st : PyStr) (isp : Option Bool)
    (m : Material) (hm : get_by_id db mid = some m) :
    update_processing_status db mid st isp none = some (setStatusDB db mid st isp) := by
  unfold update_processing_status
  rw [hm]

/-- The failed-status update of the except branch never changes the session:
its truthy metadata raises AttributeError before any field is assigned, the
bare except swallows it, and when the material is missing the update is a
no-op. -/
theorem failStatusUpdate_eq (s : DBSession) (mid : ℕ) (err : PyStr) :
    failStatusUpdate s mid err = s := by
  unfold failStatusUpdate update_processing_status
  cases hg : get_by_id s.pending mid with
  | none => rfl
  | some m => rfl

/-- C9: ingesting an already processed material (no force flag exists on this
path; forced reprocessing resets the material first) returns success
immediately as a no-op: the committed database is unchanged — no status
change, no embedding deletion or insertion — and zero blob-store downloads
and zero embedding-service calls are made, so no extraction happens either. -/
theorem c9_processed_noop (env : Env) (db0 : DBState) (material_id course_id : ℕ)
    (m : Material) (hm : get_by_id db0 material_id = some m)
    (hp : m.is_processed = true) :
    ingest_course_material env db0 material_id course_id = ⟨true, db0, 0, 0⟩ := by
  unfold ingest_course_material
  rw [hm]
  simp [hp]

/-- C9 witness: the no-op short-circuit evaluated on a concrete processed
material. -/
theorem c9_witness :
    ingest_course_material envDownloadFails dbProcessed 3 2 = ⟨true, dbProcessed, 0, 0⟩ :=
  c9_processed_noop envDownloadFails dbProcessed 3 2 matProcessed (by decide) (by decide)

/-- C1 (code bug): the status-consistency invariant fails on the source,
evaluated at a failing input.  Ingesting a pending material whose download,
chunking, embedding and storage all succeed ends with the embedding row
flushed and committed, but the completed-status update raises AttributeError
on its metadata merge (material.metadata is the declarative MetaData
registry, not the meta_data column), swallowed downstream, so the run ends
with the material stuck in processing, one orphaned committed embedding and
a False return — none of the claim's three consistent states, and a state
from which get_unprocessed_materials (which retries only pending and failed)
never re-processes the material. -/
theorem c1_orphaned_processing_state :
    (ingest_course_material envHappy dbPending 1 2).ok = false ∧
    statusOf (ingest_course_material envHappy dbPending 1 2).db 1 =
      some st_processing ∧
    embCount (ingest_course_material envHappy dbPending 1 2).db 1 = 1 ∧
    ¬StatusConsistent dbPending (ingest_course_material envHappy dbPending 1 2).db 1 := by
  exact ⟨by decide, by decide, by decide, by decide⟩

/-- C2 (code bug): failure recording fails on the source, evaluated at a
failing input.  A mid-pipeline failure — every chunk embedding raises, after
the status was committed to processing — ends with the failed-status update
itself raising AttributeError on its metadata merge, swallowed by the bare
except, so the material stays in processing with no error recorded under the
metadata key error; an extraction failure raises into the outer except
before any failed-status update is attempted and leaves the same state.  The
claim requires status failed with the error string recorded in both cases. -/
theorem c2_failures_unrecorded :
    ((ingest_course_material envNoEmbed dbPending 1 2).ok = false ∧
      statusOf (ingest_course_material envNoEmbed dbPending 1 2).db 1 =
        some st_processing ∧
      errOf (ingest_course_material envNoEmbed dbPending 1 2).db 1 = none) ∧
    ((ingest_course_material envEmptyDoc dbPending 1 2).ok = false ∧
      statusOf (ingest_course_material envEmptyDoc dbPending 1 2).db 1 =
        some st_processing ∧
      errOf (ingest_course_material envEmptyDoc dbPending 1 2).db 1 = none) := by
  exact ⟨⟨by decide, by decide, by decide⟩, ⟨by decide, by decide, by decide⟩⟩


/-- C7: with fallback off and a well-formed course id, when normal-mode
retrieval yields zero context chunks generate_answer returns the fixed
could-not-find-relevant-information message and makes zero calls to the
text-generation service. -/
theorem c7_zero_chunk_short_circuit (env : Env) (dist : List ℚ → List ℚ → ℚ)
    (db : DBState) (p : GenParams) (cid : ℕ)
    (hc : env.parseUUID p.courseId = some cid)
    (hf : p.use_fallback = false)
    (hz : (retrieve_with_context env dist db p.query cid 5).chunks = []) :
    generate_answer env dist db p = ⟨msg_not_found, 0⟩ := by
  unfold generate_answer
  rw [hc]
  simp [hf, hz]

/-- C7 witness: the short-circuit evaluated on a concrete course with no
embeddings (the query embedding call raises, so retrieval returns no
chunks). -/
theorem c7_witness : generate_answer envC7 distZero dbPending gpC7 = ⟨msg_not_found, 0⟩ :=
  c7_zero_chunk_short_circuit envC7 distZero dbPending gpC7 2 (by decide) (by decide)
    (by decide)

theorem assocFind_isSome_iff_any (l : List (ℕ × MaterialGroup)) (k : ℕ) :
    (l.any (fun p => decide (p.1 = k))) = (assocFind l k).isSome := by
  induction l with
  | nil => rfl
  | cons a l ih =>
    unfold assocFind at ih ⊢
    rw [List.any_cons, List.find?_cons]
    by_cases h : a.1 = k
    · simp [h]
    · have hd : (decide (a.1 = k)) = false := by simp [h]
      simp only [hd, Bool.false_or]
      exact ih

theorem assocFind_mapUpd_eq (acc : List (ℕ × MaterialGroup)) (r : RetrievedChunk) :
    assocFind (acc.map (fun p =>
      if p.1 = r.material_id then
        (p.1, { p.2 with chunks := p.2.chunks ++ [(r.text, r.chunk_index)] })
      else p)) r.material_id =
    (assocFind acc r.material_id).map
      (fun g => { g with chunks := g.chunks ++ [(r.text, r.chunk_index)] }) := by
  induction acc with
  | nil => rfl
  | cons a acc ih =>
    unfold assocFind at ih ⊢
    rw [List.map_cons, List.find?_cons, List.find?_cons]
    by_cases h : a.1 = r.material_id
    · rw [if_pos h]
      simp [h]
    · rw [if_neg h]
      have hd : (decide (a.1 = r.material_id)) = false := by simp [h]
      simp only [hd]
      exact ih

theorem assocFind_mapUpd_ne (acc : List (ℕ × MaterialGroup)) (r : RetrievedChunk)
    (mid : ℕ) (hne : mid ≠ r.material_id) :
    assocFind (acc.map (fun p =>
      if p.1 = r.material_id then
        (p.1, { p.2 with chunks := p.2.chunks ++ [(r.text, r.chunk_index)] })
      else p)) mid = assocFind acc mid := by
  induction acc with
  | nil => rfl
  | cons a acc ih =>
    unfold assocFind at ih ⊢
    rw [List.map_cons, List.find?_cons, List.find?_cons]
    by_cases h : a.1 = r.material_id
    · rw [if_pos h]
      have ha : (decide ((a.1, { a.2 with chunks := a.2.chunks ++
          [(r.text, r.chunk_index)] }).1 = mid)) = false := by
        simp only [decide_eq_false_iff_not]
        rw [h]
        exact fun he => hne he.symm
      have ha2 : (decide (a.1 = mid)) = false := by
        simp only [decide_eq_false_iff_not]
        rw [h]
        exact fun he => hne he.symm
      simp only [ha, ha2]
      exact ih
    · rw [if_neg h]
      by_cases h2 : a.1 = mid
      · simp [h2]
      · have hd : (decide (a.1 = mid)) = false := by simp [h2]
        simp only [hd]
        exact ih

theorem assocFind_append_single (acc : List (ℕ × MaterialGroup)) (k : ℕ)
    (g0 : MaterialGroup) (mid : ℕ) :
    assocFind (acc ++ [(k, g0)]) mid =
      match assocFind acc mid with
      | some g => some g
      | none => if mid = k then some g0 else none := by
  induction acc with
  | nil =>
    unfold assocFind
    rw [List.nil_append, List.find?_cons]
    by_cases h : k = mid
    · have hd : (decide ((k, g0).1 = mid)) = true := decide_eq_true h
      simp only [hd]
      rw [if_pos h.symm]
      rfl
    · have hd : (decide ((k, g0).1 = mid)) = false := by simp [h]
      simp only [hd]
      rw [List.find?_nil, if_neg (fun he => h he.symm)]
      rfl
  | cons a acc ih =>
    unfold assocFind at ih ⊢
    rw [List.cons_append, List.find?_cons, List.find?_cons]
    by_cases h : a.1 = mid
    · simp [h]
    · have hd : (decide (a.1 = mid)) = false := by simp [h]
      simp only [hd]
      exact ih

/-- The accumulated dict after the grouping fold: an existing group gains the
entries of its material in result order; an absent material gets exactly its
spec group. -/
theorem groupBy_fold_assoc (rs : List RetrievedChunk) :
    ∀ (acc : List (ℕ × MaterialGroup)) (mid : ℕ),
      assocFind (rs.foldl groupStep acc) mid =
        match assocFind acc mid with
        | some g => some { g with chunks := g.chunks ++
            ((rs.filter (fun r => decide (r.material_id = mid))).map
              (fun x => (x.text, x.chunk_index))) }
        | none => groupSpec rs mid := by
  induction rs with
  | nil =>
    intro acc mid
    rw [List.foldl_nil]
    cases h : assocFind acc mid with
    | none => rfl
    | some g =>
      simp only [List.filter_nil, List.map_nil, List.append_nil]
  | cons r rs ih =>
    intro acc mid
    rw [List.foldl_cons, ih (groupStep acc r) mid]
    unfold groupStep
    by_cases hany : acc.any (fun p => decide (p.1 = r.material_id))
    · rw [if_pos hany]
      by_cases hmid : mid = r.material_id
      · rw [hmid, assocFind_mapUpd_eq]
        have hsome : (assocFind acc r.material_id).isSome = true := by
          rw [← assocFind_isSome_iff_any]
          exact hany
        rcases Option.isSome_iff_exists.mp hsome with ⟨g, hg⟩
        rw [hg, Option.map_some']
        rw [List.filter_cons, if_pos (by simp)]
        simp [List.append_assoc]
      · rw [assocFind_mapUpd_ne acc r mid hmid]
        have hrf : (decide (r.material_id = mid)) = false := by
          simp only [decide_eq_false_iff_not]
          exact fun he => hmid he.symm
        have hgs : groupSpec (r :: rs) mid = groupSpec rs mid := by
          unfold groupSpec
          rw [List.filter_cons, if_neg (by simp [hrf])]
        rw [List.filter_cons, if_neg (by simp [hrf]), hgs]
    · rw [if_neg hany, assocFind_append_single]
      have hnone : assocFind acc r.material_id = none := by
        cases ha : assocFind acc r.material_id with
        | none => rfl
        | some g =>
          exfalso
          apply hany
          rw [assocFind_isSome_iff_any, ha]
          rfl
      by_cases hmid : mid = r.material_id
      · rw [hmid, hnone, if_pos rfl]
        have hgs : groupSpec (r :: rs) r.material_id =
            some ⟨r.file_name, r.file_type, ((r :: rs.filter
              (fun x => decide (x.material_id = r.material_id))).map
                (fun x => (x.text, x.chunk_index)))⟩ := by
          unfold groupSpec
          rw [List.filter_cons, if_pos (by simp)]
        rw [hgs]
        simp
      · cases h3 : assocFind acc mid with
        | none =>
          rw [if_neg hmid]
          have hgs : groupSpec (r :: rs) mid = groupSpec rs mid := by
            unfold groupSpec
            rw [List.filter_cons,
              if_neg (by simp only [decide_eq_true_eq]; exact fun he => hmid he.symm)]
          rw [hgs]
        | some g =>
          have hd : (decide (r.material_id = mid)) = false := by
            simp only [decide_eq_false_iff_not]
            exact fun he => hmid he.symm
          rw [List.filter_cons, hd]
          simp only [Bool.false_eq_true, if_false]

theorem groupStep_keys_nodup (acc : List (ℕ × MaterialGroup)) (r : RetrievedChunk)
    (h : (acc.map Prod.fst).Nodup) : ((groupStep acc r).map Prod.fst).Nodup := by
  unfold groupStep
  by_cases hany : acc.any (fun p => decide (p.1 = r.material_id))
  · rw [if_pos hany, List.map_map]
    have heq : ((fun p : ℕ × MaterialGroup => p.1) ∘ (fun p : ℕ × MaterialGroup =>
        if p.1 = r.material_id then
          (p.1, { p.2 with chunks := p.2.chunks ++ [(r.text, r.chunk_index)] })
        else p)) = Prod.fst := by
      funext p
      by_cases hp : p.1 = r.material_id <;> simp [hp]
    rw [heq]
    exact h
  · rw [if_neg hany, List.map_append]
    rw [List.nodup_append]
    refine ⟨h, List.nodup_singleton _, ?_⟩
    intro k hk hk2
    simp only [List.map_cons, List.map_nil, List.mem_singleton] at hk2
    subst hk2
    rcases List.mem_map.mp hk with ⟨p, hp, hpk⟩
    apply hany
    rw [List.any_eq_true]
    exact ⟨p, hp, decide_eq_true hpk⟩

theorem groupBy_keys_nodup (rs : List RetrievedChunk) :
    ((groupByMaterial rs).map Prod.fst).Nodup := by
  have H : ∀ (acc : List (ℕ × MaterialGroup)), (acc.map Prod.fst).Nodup →
      ((rs.foldl groupStep acc).map Prod.fst).Nodup := by
    induction rs with
    | nil => intro acc h; exact h
    | cons r rs ih =>
      intro acc h
      rw [List.foldl_cons]
      exact ih (groupStep acc r) (groupStep_keys_nodup acc r h)
  exact H [] (by simp)

theorem assocFind_of_mem (l : List (ℕ × MaterialGroup))
    (hnd : (l.map Prod.fst).Nodup) (q : ℕ × MaterialGroup) (hq : q ∈ l) :
    assocFind l q.1 = some q.2 := by
  induction l with
  | nil => cases hq
  | cons a l ih =>
    rw [List.map_cons, List.nodup_cons] at hnd
    rcases List.mem_cons.mp hq with rfl | hq'
    · unfold assocFind
      rw [List.find?_cons]
      simp
    · have hne : a.1 ≠ q.1 := by
        intro he
        exact hnd.1 (he ▸ List.mem_map.mpr ⟨q, hq', rfl⟩)
      unfold assocFind
      rw [List.find?_cons]
      have hd : (decide (a.1 = q.1)) = false := by simp [hne]
      simp only [hd]
      exact ih hnd.2 hq'

theorem groupBy_assocFind (rs : List RetrievedChunk) (mid : ℕ) :
    assocFind (groupByMaterial rs) mid = groupSpec rs mid := by
  unfold groupByMaterial
  rw [groupBy_fold_assoc rs [] mid]
  rfl

/-- C8 (amended): retrieve_with_context returns the similarity results'
texts and count, grouped by originating material: every group is exactly its
material's spec group — the owning material's file name and file type with
the material's (text, chunk index) entries in the order they appear in the
similarity results, most similar first, not in chunk-index order — every
result's material has such a group, and the file name and type of every
result row come from the material row the embedding belongs to. -/
theorem c8_retrieval_grouping (env : Env) (dist : List ℚ → List ℚ → ℚ) (db : DBState)
    (query : PyStr) (cid k : ℕ) :
    (retrieve_with_context env dist db query cid k).chunks =
      (retrieve_from_course env dist db query cid k).map (fun r => r.text) ∧
    (retrieve_with_context env dist db query cid k).total_chunks =
      (retrieve_from_course env dist db query cid k).length ∧
    (∀ g ∈ (retrieve_with_context env dist db query cid k).materials_used,
      ∃ mid, groupSpec (retrieve_from_course env dist db query cid k) mid = some g) ∧
    (∀ r ∈ retrieve_from_course env dist db query cid k,
      ∃ g ∈ (retrieve_with_context env dist db query cid k).materials_used,
        groupSpec (retrieve_from_course env dist db query cid k) r.material_id =
          some g) ∧
    (∀ r ∈ retrieve_from_course env dist db query cid k,
      r.file_name = (get_by_id db r.material_id).map (fun mm => mm.file_name) ∧
      r.file_type = (get_by_id db r.material_id).bind (fun mm => mm.file_type)) := by
  refine ⟨rfl, rfl, ?_, ?_, ?_⟩
  · intro g hg
    rcases List.mem_map.mp hg with ⟨q, hq, rfl⟩
    refine ⟨q.1, ?_⟩
    rw [← groupBy_assocFind]
    exact assocFind_of_mem _ (groupBy_keys_nodup _) q hq
  · intro r hr
    have hmem : r ∈ (retrieve_from_course env dist db query cid k).filter
        (fun x => decide (x.material_id = r.material_id)) :=
      List.mem_filter.mpr ⟨hr, by simp⟩
    cases hfil : (retrieve_from_course env dist db query cid k).filter
        (fun x => decide (x.material_id = r.material_id)) with
    | nil =>
      rw [hfil] at hmem
      cases hmem
    | cons r0 rest =>
      have hgs : groupSpec (retrieve_from_course env dist db query cid k)
          r.material_id = some ⟨r0.file_name, r0.file_type,
            (r0 :: rest).map (fun x => (x.text, x.chunk_index))⟩ := by
        unfold groupSpec
        rw [hfil]
      have hfind := groupBy_assocFind (retrieve_from_course env dist db query cid k)
        r.material_id
      rw [hgs] at hfind
      unfold assocFind at hfind
      cases hf2 : (groupByMaterial (retrieve_from_course env dist db query cid k)).find?
          (fun q => decide (q.1 = r.material_id)) with
      | none => rw [hf2] at hfind; cases hfind
      | some q =>
        rw [hf2, Option.map_some'] at hfind
        refine ⟨q.2, ?_, ?_⟩
        · exact List.mem_map.mpr ⟨q, List.mem_of_find?_eq_some hf2, rfl⟩
        · rw [hgs, hfind]
  · intro r hr
    unfold retrieve_from_course at hr
    cases hqe : env.embed query with
    | none => rw [hqe] at hr; cases hr
    | some qv =>
      rw [hqe] at hr
      rcases List.mem_map.mp hr with ⟨e, _, rfl⟩
      exact ⟨rfl, rfl⟩

/-- C8 counterexample: with the material's second chunk more similar to the
query, the material's group lists its chunk texts in similarity order
(indices 1 then 0), not in the original chunk-index order the claim
states. -/
theorem c8_counterexample :
    (retrieve_with_context envC8 dotDist dbTwoChunks ("q".toList) 2 5).materials_used =
      [⟨some ("notes.pdf".toList), some ("pdf".toList),
        [("beta".toList, 1), ("alpha".toList, 0)]⟩] ∧
    ((retrieve_with_context envC8 dotDist dbTwoChunks ("q".toList) 2 5).materials_used.all
      (fun g => indexSorted g.chunks)) = false := by
  exact ⟨by decide, by decide⟩

end AiTa
